import Mathlib

/-!
Verification development for the `thorium` bytecode compiler and VM
(src/scanner.rs, src/chunk.rs, src/compiler.rs, src/value.rs, src/vm.rs).

The Rust sources are shallowly embedded below: pure functions become Lean
functions, the scanner / parser / VM loops become fuel-indexed structural
recursions (so that every definition evaluates inside the kernel), and
Rust panics (out-of-bounds indexing, usize underflow) are modelled as an
explicit `none` / `crashed` outcome.  Machine integers (`u8`, `usize`)
are modelled as `Nat`; the `f32` payload of `Value::Number` is modelled
as a rational number, with the IEEE-754 binary32 rounding of decimal
literals modelled explicitly where a claim depends on it.
-/

namespace Thorium

/-! ### Characters used by the scanner, named to keep literals simple -/

/-- NUL byte, which Rust's scanner compares against at end of input. -/
def cNul : Char := Char.ofNat 0

/-- Horizontal tab. -/
def cTab : Char := Char.ofNat 9

/-- Line feed. -/
def cNl : Char := Char.ofNat 10

/-- Carriage return. -/
def cCr : Char := Char.ofNat 13

/-- Double quote. -/
def cQuote : Char := Char.ofNat 34

/-- Opening curly bracket. -/
def cLCurly : Char := Char.ofNat 123

/-- Closing curly bracket. -/
def cRCurly : Char := Char.ofNat 125

/-! ### Rust `str::replace` with an empty replacement string

`value.rs` uses `String::replace(pat, "")` twice (in `Add` and `Sub` for
`DynamicString`).  `stripPatF` removes every non-overlapping occurrence of
`pat`, scanning left to right, exactly as Rust's `replace` does when the
replacement is empty (an empty pattern leaves the string unchanged in
that case).  Fuel keeps the recursion structural; `stripPat` supplies
enough fuel for the whole input. -/

def stripPatF : ℕ → List Char → List Char → List Char
  | 0, _, s => s
  | _ + 1, _, [] => []
  | fuel + 1, pat, c :: rest =>
    if pat ≠ [] ∧ pat.isPrefixOf (c :: rest) then
      stripPatF fuel pat ((c :: rest).drop pat.length)
    else
      c :: stripPatF fuel pat rest

/-- Remove every occurrence of `pat` from `s` (Rust `s.replace(pat, "")`). -/
def stripPat (pat s : List Char) : List Char :=
  stripPatF (s.length + 1) pat s

/-! ### A kernel-evaluable rational number type

Mathlib's `ℚ` operations do not reduce inside the kernel, so the `f32`
payload of `Value::Number` is modelled by `Q`, an always-normalised
fraction (numerator coprime to a positive denominator) whose operations
are built from kernel-accelerated `Nat`/`Int` arithmetic.  `⟨0, 0⟩` is a
sentinel for the non-finite `f32` values produced by division by zero;
no claim exercises it. -/

structure Q where
  num : ℤ
  den : ℕ
deriving DecidableEq

/-- Build the normalised fraction `n / d` (sign on the numerator,
numerator and denominator coprime); `d = 0` yields the sentinel. -/
def normQ (n d : ℤ) : Q :=
  if d = 0 then ⟨0, 0⟩
  else
    let n' : ℤ := if d < 0 then -n else n
    let dn : ℕ := d.natAbs
    let g : ℕ := Nat.gcd n'.natAbs dn
    ⟨if n' < 0 then -((n'.natAbs / g : ℕ) : ℤ) else ((n'.natAbs / g : ℕ) : ℤ), dn / g⟩

def Q.ofInt (n : ℤ) : Q := ⟨n, 1⟩

def Q.ofNat (n : ℕ) : Q := ⟨(n : ℤ), 1⟩

def Q.add (a b : Q) : Q := normQ (a.num * b.den + b.num * a.den) (a.den * b.den)

def Q.sub (a b : Q) : Q := normQ (a.num * b.den - b.num * a.den) (a.den * b.den)

def Q.mul (a b : Q) : Q := normQ (a.num * b.num) (a.den * b.den)

/-- Division; `b = 0` produces the non-finite sentinel (`f32` infinity /
NaN), which no claim exercises. -/
def Q.divq (a b : Q) : Q := normQ (a.num * b.den) (a.den * b.num)

def Q.neg (a : Q) : Q := ⟨-a.num, a.den⟩

/-- Comparison of fractions by cross multiplication. -/
def Q.cmp (a b : Q) : Ordering := compare (a.num * b.den) (b.num * a.den)

/-- Floor of a fraction (floor division of the numerator). -/
def Q.floorq (a : Q) : ℤ := Int.fdiv a.num a.den

/-- The dyadic fraction `2 ^ sh` for a possibly negative exponent. -/
def qPow2 (sh : ℤ) : Q :=
  if 0 ≤ sh then ⟨2 ^ sh.toNat, 1⟩ else ⟨1, 2 ^ (-sh).toNat⟩

/-! ### Base-two logarithm and IEEE-754 rounding of decimal literals

`compiler.rs` parses each numeric lexeme with Rust's `str::parse::<f32>()`
(the `Value::Number` payload is an `f32` in `value.rs`).  That parse is
correctly rounded: the exact decimal value is rounded to the nearest
binary32 value, ties to even.  `round32` implements that rounding
(normal range, with the subnormal exponent clamp; literals large enough
to overflow to infinity are outside the range any claim exercises and
are returned as their rounded rational value). -/

def natLog2F : ℕ → ℕ → ℕ
  | 0, _ => 0
  | fuel + 1, n => if n ≤ 1 then 0 else natLog2F fuel (n / 2) + 1

/-- Floor of the base-two logarithm (`0` for `0`). -/
def natLog2 (n : ℕ) : ℕ := natLog2F n n

/-- Floor of the base-two logarithm of a positive fraction. -/
def qLog2 (q : Q) : ℤ :=
  let a : ℕ := q.num.toNat
  let b : ℕ := q.den
  if b ≤ a then (natLog2 (a / b) : ℤ)
  else
    let k0 := natLog2 (b / a)
    if b ≤ a * 2 ^ k0 then -(k0 : ℤ) else -((k0 + 1 : ℕ) : ℤ)

/-- Round a fraction to the nearest integer, ties to even. -/
def rne (q : Q) : ℤ :=
  let f : ℤ := q.floorq
  let r : Q := q.sub (Q.ofInt f)
  match r.cmp ⟨1, 2⟩ with
  | .lt => f
  | .gt => f + 1
  | .eq => if f % 2 = 0 then f else f + 1

/-- Round a positive fraction to the IEEE-754 binary format with
`mbits` significand bits after the point and minimum exponent `emin`. -/
def roundPos (mbits : ℕ) (emin : ℤ) (q : Q) : Q :=
  let e : ℤ := max (qLog2 q) emin
  let sh : ℤ := (mbits : ℤ) - e
  (Q.ofInt (rne (q.mul (qPow2 sh)))).mul (qPow2 (-sh))

/-- Round a fraction to the nearest IEEE-754 binary32 value (ties to
even), the behaviour of Rust's `str::parse::<f32>` on an exact decimal. -/
def round32 (q : Q) : Q :=
  if q.num = 0 then ⟨0, 1⟩
  else if q.num < 0 then (roundPos 23 (-126) q.neg).neg else roundPos 23 (-126) q

/-- Round a fraction to the nearest IEEE-754 binary64 value. -/
def round64 (q : Q) : Q :=
  if q.num = 0 then ⟨0, 1⟩
  else if q.num < 0 then (roundPos 52 (-1022) q.neg).neg else roundPos 52 (-1022) q

/-! ### Decimal lexemes

The scanner only produces numeric lexemes of the shape `digits` or
`digits.digits`, which is the shape `decimalToQ` accepts. -/

def digitVal (c : Char) : ℕ := c.toNat - 48

def digitsToNatAux : List Char → ℕ → Option ℕ
  | [], acc => some acc
  | c :: rest, acc =>
    if c.isDigit then digitsToNatAux rest (acc * 10 + digitVal c) else none

/-- Parse a non-empty all-digit string. -/
def digitsToNat : List Char → Option ℕ
  | [] => none
  | s => digitsToNatAux s 0

/-- Exact rational value of a decimal lexeme `digits` or `digits.digits`. -/
def decimalToQ (s : List Char) : Option Q :=
  match s.splitOn '.' with
  | [intPart] => (digitsToNat intPart).map Q.ofNat
  | [intPart, fracPart] =>
    match digitsToNat intPart, digitsToNat fracPart with
    | some n, some f =>
      some (normQ ((n : ℤ) * 10 ^ fracPart.length + (f : ℤ)) (10 ^ fracPart.length))
    | _, _ => none
  | _ => none

/-- Rust `lexeme.parse::<f32>()` on a scanner-produced numeric lexeme:
the exact decimal value, correctly rounded to binary32. -/
def parseF32 (s : List Char) : Option Q :=
  (decimalToQ s).map round32

/-- Modelled from the spec: "`number`: parse `previous.lexeme` as a
double" — the claim-side binary64 parse, for comparison against the
source's binary32 parse (`parseF32`). -/
def parseF64Spec (s : List Char) : Option Q :=
  (decimalToQ s).map round64

end Thorium

namespace Thorium

/-! ### Values (src/value.rs)

`Value::Number` holds an `f32` in the source; its payload is modelled as
a rational (binary32 rounding is applied where literals are parsed, see
`parseF32`).  Arithmetic on `Number` payloads is modelled exactly on the
rationals; no claim depends on the rounding of run-time arithmetic. -/

inductive Value where
  | Boolean (b : Bool)
  | Nil
  | Number (n : Q)
  | DynamicString (s : String)
deriving DecidableEq

/-- `impl PartialEq for Value` (value.rs lines 22-32). -/
def Value.eqv : Value → Value → Bool
  | .Boolean a, .Boolean b => a == b
  | .Nil, .Nil => true
  | .Number a, .Number b => a == b
  | .DynamicString a, .DynamicString b => a == b
  | _, _ => false

/-- `impl PartialOrd for Value` (value.rs lines 34-44): note that two
`DynamicString`s compare by LENGTH (`a.len().partial_cmp(&b.len())`),
not lexicographically. -/
def Value.pcmp : Value → Value → Option Ordering
  | .Boolean a, .Boolean b => some (compare a b)
  | .Nil, .Nil => some .eq
  | .Number a, .Number b => some (Q.cmp a b)
  | .DynamicString a, .DynamicString b => some (compare a.length b.length)
  | _, _ => none

/-- Rust `a > b` via `PartialOrd`: true iff `partial_cmp` is `Greater`. -/
def Value.gtv (a b : Value) : Bool := Value.pcmp a b == some .gt

/-- Rust `a < b` via `PartialOrd`: true iff `partial_cmp` is `Less`. -/
def Value.ltv (a b : Value) : Bool := Value.pcmp a b == some .lt

/-- `impl ops::Add for Value` (value.rs lines 46-59).  String
concatenation removes every `""` pair afterwards (`.replace("\"\"", "")`). -/
def Value.add : Value → Value → Value
  | .Boolean a, .Boolean b => .Boolean (a || b)
  | .Number a, .Number b => .Number (a.add b)
  | .DynamicString a, .DynamicString b =>
    .DynamicString ⟨stripPat [cQuote, cQuote] (a.data ++ b.data)⟩
  | _, _ => .Nil

/-- `impl ops::Sub for Value` (value.rs lines 61-73): string subtraction
removes occurrences of the right string (`a.replace(&b, "")`). -/
def Value.sub : Value → Value → Value
  | .Number a, .Number b => .Number (a.sub b)
  | .DynamicString a, .DynamicString b => .DynamicString ⟨stripPat b.data a.data⟩
  | _, _ => .Nil

/-- `impl ops::Mul for Value` (value.rs lines 75-85). -/
def Value.mul : Value → Value → Value
  | .Boolean a, .Boolean b => .Boolean (a && b)
  | .Number a, .Number b => .Number (a.mul b)
  | _, _ => .Nil

/-- `impl ops::Div for Value` (value.rs lines 87-96).  Division of the
rational payloads stands in for `f32` division; no claim touches the
result of a division. -/
def Value.div : Value → Value → Value
  | .Number a, .Number b => .Number (a.divq b)
  | _, _ => .Nil

/-- Rendering of a rational `Number` payload.  Rust prints the `f32`
with its `Display` instance; no claim depends on numeric formatting, so
a plain rendering of the fraction is used. -/
def ratDisplay (q : Q) : String :=
  if q.den = 1 then toString q.num else toString q.num ++ "/" ++ toString q.den

/-- `impl fmt::Display for Value` (value.rs lines 11-20). -/
def Value.display : Value → String
  | .Boolean true => "true"
  | .Boolean false => "false"
  | .Nil => "nil"
  | .Number n => ratDisplay n
  | .DynamicString s => s

end Thorium

namespace Thorium

/-! ### Opcodes and chunks (src/chunk.rs)

The snapshot's `OpCode` enum lists `Return` through `Less`.  vm.rs and
compiler.rs additionally dispatch on / emit `Print`, `Pop`,
`DefineGlobal`, `GetGlobal` and `SetGlobal`.  Modelled from the spec:
those five statement/global opcodes (spec section 4.4), which are missing
from the snapshot's enum, are appended after `Less` in declaration
order, continuing the `repr(u8)` numbering.  No claim depends on the
particular numeric values, only on the encode/decode round-trip. -/

inductive OpCode where
  | Return | Constant | Negate | Add | Subtract | Divide | Multiply
  | True | False | Nil | Not | Equal | Greater | Less
  | Print | Pop | DefineGlobal | GetGlobal | SetGlobal
deriving DecidableEq

/-- `repr(u8)` discriminant of an opcode (`Into<u8>`). -/
def opToByte : OpCode → ℕ
  | .Return => 0 | .Constant => 1 | .Negate => 2 | .Add => 3
  | .Subtract => 4 | .Divide => 5 | .Multiply => 6 | .True => 7
  | .False => 8 | .Nil => 9 | .Not => 10 | .Equal => 11
  | .Greater => 12 | .Less => 13 | .Print => 14 | .Pop => 15
  | .DefineGlobal => 16 | .GetGlobal => 17 | .SetGlobal => 18

/-- `OpCode::try_from(u8)` (`TryFromPrimitive`): decode a byte,
failing on anything outside the discriminant range. -/
def opOfByte (b : ℕ) : Option OpCode :=
  if b = 0 then some .Return else if b = 1 then some .Constant
  else if b = 2 then some .Negate else if b = 3 then some .Add
  else if b = 4 then some .Subtract else if b = 5 then some .Divide
  else if b = 6 then some .Multiply else if b = 7 then some .True
  else if b = 8 then some .False else if b = 9 then some .Nil
  else if b = 10 then some .Not else if b = 11 then some .Equal
  else if b = 12 then some .Greater else if b = 13 then some .Less
  else if b = 14 then some .Print else if b = 15 then some .Pop
  else if b = 16 then some .DefineGlobal else if b = 17 then some .GetGlobal
  else if b = 18 then some .SetGlobal else none

/-- `Chunk` (chunk.rs lines 25-29): bytecode, constant pool, line table. -/
structure Chunk where
  code : List ℕ
  constants : List Value
  lines : List ℕ
deriving DecidableEq

/-- `Chunk::init` (chunk.rs lines 32-38). -/
def Chunk.init : Chunk := ⟨[], [], []⟩

/-- `Chunk::write` (chunk.rs lines 40-43): append one byte and one line
number in lockstep. -/
def Chunk.write (c : Chunk) (byte : ℕ) (line : ℕ) : Chunk :=
  { c with code := c.code ++ [byte], lines := c.lines ++ [line] }

/-- `Chunk::add_constant` (chunk.rs lines 45-48): push the value and
return its index (`len - 1` after the push, i.e. the old length). -/
def Chunk.addConstant (c : Chunk) (v : Value) : ℕ × Chunk :=
  (c.constants.length, { c with constants := c.constants ++ [v] })

end Thorium

namespace Thorium

/-! ### Scanner (src/scanner.rs)

The scanner walks `source.as_bytes()`, reading each byte as a `char`;
the model walks a `List Char`, which agrees byte-for-byte on ASCII
sources (every concrete source a claim exercises is ASCII).  Rust
panics — an out-of-bounds index in `peek_next`, or an out-of-range
slice in `check_keyword` — are modelled by `none`. -/

inductive TokenType where
  | Leftparen | Rightparen | Leftbrace | Rightbrace | Comma | Dot
  | Minus | Plus | Semicolon | Slash | Star
  | Bang | Bangequal | Equal | Equalequal
  | Greater | Greaterequal | Less | Lessequal
  | Identifier | String | Number
  | And | Class | Else | False | For | Fun | If | Nil | Or
  | Print | Return | Super | This | True | Var | While
  | Error | Eof
deriving DecidableEq

/-- `Token` (scanner.rs lines 60-65). -/
structure Token where
  tokenType : TokenType
  lexeme : String
  line : ℕ
deriving DecidableEq

/-- Scanner state (scanner.rs lines 4-9): `start`, `current`, `line`. -/
structure ScanSt where
  src : List Char
  sstart : ℕ
  scur : ℕ
  line : ℕ
deriving DecidableEq

/-- `Scanner::init`. -/
def initScan (source : String) : ScanSt := ⟨source.data, 0, 0, 1⟩

/-- `is_at_end` (scanner.rs lines 175-177). -/
def ScanSt.isAtEnd (s : ScanSt) : Bool := s.scur = s.src.length

/-- `peek` (scanner.rs lines 227-232): NUL at end of input. -/
def ScanSt.peekCh (s : ScanSt) : Char :=
  if s.isAtEnd then cNul else s.src.getD s.scur cNul

/-- `peek_next` (scanner.rs lines 234-239).  The guard checks
`is_at_end` but the read is at `current + 1`, so with `current` on the
last character the index is out of bounds: a Rust panic, modelled as
`none`. -/
def ScanSt.peekNext (s : ScanSt) : Option Char :=
  if s.isAtEnd then some cNul
  else if s.scur + 1 = s.src.length then none
  else some (s.src.getD (s.scur + 1) cNul)

/-- `advance` (scanner.rs lines 179-183), used only where the cursor is
in bounds (every call site guards with `peek`/`is_at_end` first). -/
def ScanSt.adv1 (s : ScanSt) : ScanSt := { s with scur := s.scur + 1 }

/-- `match_char` (scanner.rs lines 185-197). -/
def ScanSt.matchChar (s : ScanSt) (expected : Char) : Bool × ScanSt :=
  if s.isAtEnd then (false, s)
  else if s.src.getD s.scur cNul ≠ expected then (false, s)
  else (true, s.adv1)

/-- `make_token` (scanner.rs lines 170-173): the lexeme is
`source[start..current]`, quotes and all. -/
def ScanSt.mkTok (s : ScanSt) (tt : TokenType) : Token :=
  ⟨tt, ⟨(s.src.drop s.sstart).take (s.scur - s.sstart)⟩, s.line⟩

/-- `Token::make_error_token` (scanner.rs lines 76-82). -/
def errTok (msg : String) (line : ℕ) : Token := ⟨.Error, msg, line⟩

/-- The `//`-comment loop inside `skip_whitespace_and_comments`:
consume until newline or end of input. -/
def skipLineF : ℕ → ScanSt → ScanSt
  | 0, s => s
  | fuel + 1, s =>
    if s.peekCh ≠ cNl ∧ ¬s.isAtEnd then skipLineF fuel s.adv1 else s

/-- `skip_whitespace_and_comments` (scanner.rs lines 199-225).  The `/`
arm consults `peek_next`, which panics (`none`) when `/` is the final
character of the source. -/
def skipWsF : ℕ → ScanSt → Option ScanSt
  | 0, s => some s
  | fuel + 1, s =>
    let c := s.peekCh
    if c = ' ' ∨ c = cCr ∨ c = cTab then skipWsF fuel s.adv1
    else if c = cNl then skipWsF fuel ({ s with line := s.line + 1 }).adv1
    else if c = '/' then
      if s.isAtEnd then some s
      else
        match s.peekNext with
        | none => none
        | some c2 =>
          if c2 = '/' then skipWsF fuel (skipLineF (s.src.length + 1) s) else some s
    else some s

/-- Digit-run loop of `parse_number`. -/
def digitsLoopF : ℕ → ScanSt → ScanSt
  | 0, s => s
  | fuel + 1, s => if s.peekCh.isDigit then digitsLoopF fuel s.adv1 else s

/-- Identifier-run loop of `parse_identifier` (alphanumeric characters;
Rust's unicode `is_alphanumeric` restricted to the ASCII sources the
claims exercise). -/
def identLoopF : ℕ → ScanSt → ScanSt
  | 0, s => s
  | fuel + 1, s => if s.peekCh.isAlphanum then identLoopF fuel s.adv1 else s

/-- `check_keyword` (scanner.rs lines 331-340).  The slice
`source[start+off .. start+off+rest.len()]` panics (`none`) when its end
lies past the end of the source. -/
def checkKw (s : ScanSt) (off : ℕ) (rest : List Char) (tt : TokenType) :
    Option TokenType :=
  let substart := s.sstart + off
  if s.src.length < substart + rest.length then none
  else
    let sub := (s.src.drop substart).take rest.length
    some (if s.scur - s.sstart = off + rest.length ∧ sub = rest then tt
          else .Identifier)

/-- `get_identifier_type` (scanner.rs lines 287-329): the keyword trie. -/
def getIdentType (s : ScanSt) : Option TokenType :=
  let c := s.src.getD s.sstart cNul
  if c = 'a' then checkKw s 1 "nd".data .And
  else if c = 'c' then checkKw s 1 "lass".data .Class
  else if c = 'e' then checkKw s 1 "lse".data .Else
  else if c = 'f' then
    if 1 < s.scur - s.sstart then
      let c2 := s.src.getD (s.sstart + 1) cNul
      if c2 = 'a' then checkKw s 2 "lse".data .False
      else if c2 = 'o' then checkKw s 2 "r".data .For
      else if c2 = 'u' then checkKw s 2 "n".data .Fun
      else some .Identifier
    else some .Identifier
  else if c = 'i' then checkKw s 1 "f".data .If
  else if c = 'n' then checkKw s 1 "il".data .Nil
  else if c = 'o' then checkKw s 1 "r".data .Or
  else if c = 'p' then checkKw s 1 "rint".data .Print
  else if c = 'r' then checkKw s 1 "eturn".data .Return
  else if c = 's' then checkKw s 1 "uper".data .Super
  else if c = 't' then
    if 1 < s.scur - s.sstart then
      let c2 := s.src.getD (s.sstart + 1) cNul
      if c2 = 'h' then checkKw s 2 "is".data .This
      else if c2 = 'r' then checkKw s 2 "ue".data .True
      else some .Identifier
    else some .Identifier
  else if c = 'v' then checkKw s 1 "ar".data .Var
  else if c = 'w' then checkKw s 1 "hile".data .While
  else some .Identifier

/-- `parse_identifier` (scanner.rs lines 273-285). -/
def parseIdentTok (s : ScanSt) : Option (Token × ScanSt) :=
  let s := identLoopF (s.src.length + 1) s
  (getIdentType s).map fun tt => (s.mkTok tt, s)

/-- `parse_number` (scanner.rs lines 257-271).  When the digit run is
followed by `.`, `peek_next` is consulted and can panic (`none`). -/
def parseNumberTok (s : ScanSt) : Option (Token × ScanSt) :=
  let s := digitsLoopF (s.src.length + 1) s
  if s.peekCh = '.' then
    match s.peekNext with
    | none => none
    | some c2 =>
      let s := if c2.isDigit then s.adv1 else s
      let s := digitsLoopF (s.src.length + 1) s
      some (s.mkTok .Number, s)
  else
    let s := digitsLoopF (s.src.length + 1) s
    some (s.mkTok .Number, s)

/-- The scan loop of `parse_string` (scanner.rs lines 242-247). -/
def strLoopF : ℕ → ScanSt → ScanSt
  | 0, s => s
  | fuel + 1, s =>
    if s.peekCh ≠ cQuote ∧ ¬s.isAtEnd then
      if s.peekCh = cNl then strLoopF fuel ({ s with line := s.line + 1 }).adv1
      else strLoopF fuel s.adv1
    else s

/-- `parse_string` (scanner.rs lines 241-255): the resulting lexeme
keeps both surrounding quotes (`make_token` slices `start..current`). -/
def parseStringTok (s : ScanSt) : Token × ScanSt :=
  let s := strLoopF (s.src.length + 1) s
  if s.isAtEnd then (errTok "Unterminated string." s.line, s)
  else
    let s := s.adv1
    (s.mkTok .String, s)

/-- `scan_token` (scanner.rs lines 95-168).  `none` models a Rust
panic (reachable through `skip_whitespace_and_comments`, `parse_number`
and `check_keyword`). -/
def scanTok (s : ScanSt) : Option (Token × ScanSt) :=
  match skipWsF (s.src.length + 1) s with
  | none => none
  | some s =>
    let s := { s with sstart := s.scur }
    if s.isAtEnd then some (s.mkTok .Eof, s)
    else
      let c := s.src.getD s.scur cNul
      let s := s.adv1
      if c.isAlpha then parseIdentTok s
      else if c.isDigit then parseNumberTok s
      else if c = '(' then some (s.mkTok .Leftparen, s)
      else if c = ')' then some (s.mkTok .Rightparen, s)
      else if c = cLCurly then some (s.mkTok .Leftbrace, s)
      else if c = cRCurly then some (s.mkTok .Rightbrace, s)
      else if c = ';' then some (s.mkTok .Semicolon, s)
      else if c = ',' then some (s.mkTok .Comma, s)
      else if c = '.' then some (s.mkTok .Dot, s)
      else if c = '-' then some (s.mkTok .Minus, s)
      else if c = '+' then some (s.mkTok .Plus, s)
      else if c = '/' then some (s.mkTok .Slash, s)
      else if c = '*' then some (s.mkTok .Star, s)
      else if c = '!' then
        let (m, s) := s.matchChar '='
        some (s.mkTok (if m then .Bangequal else .Bang), s)
      else if c = '=' then
        let (m, s) := s.matchChar '='
        some (s.mkTok (if m then .Equalequal else .Equal), s)
      else if c = '<' then
        let (m, s) := s.matchChar '='
        some (s.mkTok (if m then .Lessequal else .Less), s)
      else if c = '>' then
        let (m, s) := s.matchChar '='
        some (s.mkTok (if m then .Greaterequal else .Greater), s)
      else if c = cQuote then some (parseStringTok s)
      else if c = cNul then some (s.mkTok .Eof, s)
      else some (errTok "Unexpected character." s.line, s)

/-- Run the scanner to the first `Eof` token (the compiler pulls every
token up to and including it exactly once), collecting the tokens and
the final line counter.  `none` models a scanner panic. -/
def scanAllF : ℕ → ScanSt → Option (List Token × ℕ)
  | 0, s => some ([], s.line)
  | fuel + 1, s =>
    match scanTok s with
    | none => none
    | some (t, s') =>
      if t.tokenType = .Eof then some ([t], s'.line)
      else (scanAllF fuel s').map fun p => (t :: p.1, p.2)

/-- Scan a whole source string. -/
def scanAll (source : String) : Option (List Token × ℕ) :=
  scanAllF (source.length + 2) (initScan source)

end Thorium

namespace Thorium

/-! ### Compiler (src/compiler.rs)

The Pratt parser.  The Rust parser pulls tokens lazily from the scanner;
since it pulls every scanned token up to and including the first `Eof`
exactly once, the model consumes a pre-scanned token list (`toks`),
synthesising further `Eof` tokens — as the real scanner does at end of
input — once the list is exhausted.  Recursion is fuel-indexed; every
function returns its input state unchanged when the fuel runs out, and
every concrete run below is supplied ample fuel. -/

/-- `Precedence` (compiler.rs lines 12-26), as its `repr(u8)` value. -/
def precNone : ℕ := 0
def precAssignment : ℕ := 1
def precOr : ℕ := 2
def precAnd : ℕ := 3
def precEquality : ℕ := 4
def precComparison : ℕ := 5
def precTerm : ℕ := 6
def precFactor : ℕ := 7
def precUnary : ℕ := 8
def precCall : ℕ := 9
def precPrimary : ℕ := 10

/-- `Precedence::higher_precedence` (compiler.rs lines 28-35): the next
discriminant.  (`try_from_primitive(..).unwrap()` would panic above
`Primary`; it is only ever applied to rule-table precedences ≤ `Factor`.) -/
def higherPrecedence (p : ℕ) : ℕ := p + 1

/-- The prefix parse functions stored in the rule table. -/
inductive PFn where
  | grouping | unary | varName | stringLit | numberLit | literal
deriving DecidableEq

/-- The infix parse functions stored in the rule table (`binary` only). -/
inductive IFn where
  | binary
deriving DecidableEq

/-- `ParseRule` (compiler.rs lines 48-52). -/
structure ParseRule where
  pfn : Option PFn
  ifn : Option IFn
  prec : ℕ

/-- The parse-rule table (compiler.rs lines 63-384). -/
def getRule : TokenType → ParseRule
  | .Leftparen => ⟨some .grouping, none, precNone⟩
  | .Rightparen => ⟨none, none, precNone⟩
  | .Leftbrace => ⟨none, none, precNone⟩
  | .Rightbrace => ⟨none, none, precNone⟩
  | .Comma => ⟨none, none, precNone⟩
  | .Dot => ⟨none, none, precNone⟩
  | .Minus => ⟨some .unary, some .binary, precTerm⟩
  | .Plus => ⟨none, some .binary, precTerm⟩
  | .Semicolon => ⟨none, none, precNone⟩
  | .Slash => ⟨none, some .binary, precFactor⟩
  | .Star => ⟨none, some .binary, precFactor⟩
  | .Bang => ⟨some .unary, none, precNone⟩
  | .Bangequal => ⟨none, some .binary, precEquality⟩
  | .Equal => ⟨none, none, precNone⟩
  | .Equalequal => ⟨none, some .binary, precEquality⟩
  | .Greater => ⟨none, some .binary, precComparison⟩
  | .Greaterequal => ⟨none, some .binary, precComparison⟩
  | .Less => ⟨none, some .binary, precComparison⟩
  | .Lessequal => ⟨none, some .binary, precComparison⟩
  | .Identifier => ⟨some .varName, none, precNone⟩
  | .String => ⟨some .stringLit, none, precNone⟩
  | .Number => ⟨some .numberLit, none, precNone⟩
  | .And => ⟨none, none, precNone⟩
  | .Class => ⟨none, none, precNone⟩
  | .Else => ⟨none, none, precNone⟩
  | .False => ⟨some .literal, none, precNone⟩
  | .For => ⟨none, none, precNone⟩
  | .Fun => ⟨none, none, precNone⟩
  | .If => ⟨none, none, precNone⟩
  | .Nil => ⟨some .literal, none, precNone⟩
  | .Or => ⟨none, none, precNone⟩
  | .Print => ⟨none, none, precNone⟩
  | .Return => ⟨none, none, precNone⟩
  | .Super => ⟨none, none, precNone⟩
  | .This => ⟨none, none, precNone⟩
  | .True => ⟨some .literal, none, precNone⟩
  | .Var => ⟨none, none, precNone⟩
  | .While => ⟨none, none, precNone⟩
  | .Error => ⟨none, none, precNone⟩
  | .Eof => ⟨none, none, precNone⟩

/-- `Parser` (compiler.rs lines 37-45) plus the remaining token list and
the diagnostics printed so far. -/
structure ParserSt where
  chunk : Chunk
  current : Token
  previous : Token
  toks : List Token
  eofLine : ℕ
  hadError : Bool
  panicMode : Bool
  errors : List String
deriving DecidableEq

/-- `Parser::init` (compiler.rs lines 55-62): both lookahead tokens
start as `Eof` with line 0. -/
def initParser (toks : List Token) (eofLine : ℕ) : ParserSt :=
  ⟨Chunk.init, ⟨.Eof, "", 0⟩, ⟨.Eof, "", 0⟩, toks, eofLine, false, false, []⟩

/-- Location part of a diagnostic (compiler.rs lines 424-429). -/
def errLoc (t : Token) : String :=
  match t.tokenType with
  | .Eof => "at end"
  | .Error => ""
  | _ => "at '" ++ t.lexeme ++ "'"

/-- One formatted diagnostic line (compiler.rs line 431). -/
def errLine (t : Token) (msg : String) : String :=
  "[line " ++ toString t.line ++ "] Error " ++ errLoc t ++ ": " ++ msg

/-- `error_at_current` (compiler.rs lines 402-411): latch `had_error`,
and report unless already in panic mode. -/
def errorAtCurrent (p : ParserSt) (msg : String) : ParserSt :=
  let p := { p with hadError := true }
  if p.panicMode then p
  else { p with panicMode := true, errors := p.errors ++ [errLine p.current msg] }

/-- `error` (compiler.rs lines 413-422): same, at the previous token. -/
def errorAtPrev (p : ParserSt) (msg : String) : ParserSt :=
  let p := { p with hadError := true }
  if p.panicMode then p
  else { p with panicMode := true, errors := p.errors ++ [errLine p.previous msg] }

/-- Split a token stream into its leading `Error` tokens, the first
non-`Error` token (a synthesised `Eof` when the stream is exhausted —
the scanner returns `Eof` forever at end of input), and the remainder. -/
def splitErrors (eofLine : ℕ) : List Token → List Token × Token × List Token
  | [] => ([], ⟨.Eof, "", eofLine⟩, [])
  | t :: rest =>
    if t.tokenType = .Error then
      let (es, t', r) := splitErrors eofLine rest
      (t :: es, t', r)
    else ([], t, rest)

/-- `advance` (compiler.rs lines 388-400): move `current` to `previous`,
then pull tokens until a non-`Error` one arrives, reporting each `Error`
token's lexeme as a diagnostic at that token. -/
def advance (p : ParserSt) : ParserSt :=
  let (errs, t, rest) := splitErrors p.eofLine p.toks
  let p := { p with previous := p.current }
  let p := errs.foldl (fun p e => errorAtCurrent { p with current := e } e.lexeme) p
  { p with current := t, toks := rest }

/-- `consume` (compiler.rs lines 434-440). -/
def consume (p : ParserSt) (tt : TokenType) (msg : String) : ParserSt :=
  if p.current.tokenType = tt then advance p else errorAtCurrent p msg

/-- `match_token` (compiler.rs lines 582-589). -/
def matchTok (p : ParserSt) (tt : TokenType) : Bool × ParserSt :=
  if p.current.tokenType = tt then (true, advance p) else (false, p)

/-- `emit_byte` (compiler.rs lines 442-445): write through the chunk at
the previous token's line. -/
def emitByte (p : ParserSt) (byte : ℕ) : ParserSt :=
  { p with chunk := p.chunk.write byte p.previous.line }

/-- `emit_bytes` (compiler.rs lines 448-452). -/
def emitBytes (p : ParserSt) (bytes : List ℕ) : ParserSt :=
  bytes.foldl emitByte p

/-- `make_constant` (compiler.rs lines 483-491): `add_constant` first
(the pool grows even on overflow), then the one-byte range check — the
error fires when the NEW index exceeds 255, i.e. on the 257th constant. -/
def makeConstant (p : ParserSt) (v : Value) : ℕ × ParserSt :=
  let (index, ch) := p.chunk.addConstant v
  let p := { p with chunk := ch }
  if 255 < index then (0, errorAtPrev p "Too many constants in one chunk")
  else (index, p)

/-- `emit_constant` (compiler.rs lines 477-481). -/
def emitConstant (p : ParserSt) (v : Value) : ParserSt :=
  let (index, p) := makeConstant p v
  emitBytes p [opToByte .Constant, index]

/-- `number` (compiler.rs lines 470-475): parse the lexeme as an `f32`
(binary32); on parse failure nothing is emitted. -/
def numberFn (p : ParserSt) : ParserSt :=
  match parseF32 p.previous.lexeme.data with
  | some v => emitConstant p (.Number v)
  | none => p

/-- `string` (compiler.rs lines 539-542): the constant is built from
`previous.lexeme.to_string()` — the full lexeme, still carrying both
surrounding double quotes. -/
def stringFn (p : ParserSt) : ParserSt :=
  emitConstant p (.DynamicString p.previous.lexeme)

/-- `literal` (compiler.rs lines 530-537).  The wildcard arm is
`unreachable!()` in the source; the rule table only routes `False`,
`True` and `Nil` here. -/
def literalFn (p : ParserSt) : ParserSt :=
  match p.previous.tokenType with
  | .False => emitByte p (opToByte .False)
  | .True => emitByte p (opToByte .True)
  | .Nil => emitByte p (opToByte .Nil)
  | _ => p

/-- The opcode sequence `binary` emits for each operator token
(compiler.rs lines 515-527): the compound comparisons desugar to the
opposite base comparison followed by `Not`. -/
def binaryEmit : TokenType → List ℕ
  | .Plus => [opToByte .Add]
  | .Minus => [opToByte .Subtract]
  | .Star => [opToByte .Multiply]
  | .Slash => [opToByte .Divide]
  | .Bangequal => [opToByte .Equal, opToByte .Not]
  | .Equalequal => [opToByte .Equal]
  | .Greater => [opToByte .Greater]
  | .Greaterequal => [opToByte .Less, opToByte .Not]
  | .Less => [opToByte .Less]
  | .Lessequal => [opToByte .Greater, opToByte .Not]
  | _ => []

/-- `identifier_constant` (compiler.rs lines 675-677). -/
def identifierConstant (p : ParserSt) (t : Token) : ℕ × ParserSt :=
  makeConstant p (.DynamicString t.lexeme)

/-- `define_variable` (compiler.rs lines 671-673). -/
def defineVariable (p : ParserSt) (g : ℕ) : ParserSt :=
  emitBytes p [opToByte .DefineGlobal, g]

/-- `parse_variable` (compiler.rs lines 666-669). -/
def parseVariable (p : ParserSt) (err : String) : ℕ × ParserSt :=
  let p := consume p .Identifier err
  identifierConstant p p.previous

/-- The loop of `synchronize` (compiler.rs lines 630-646). -/
def syncLoopF : ℕ → ParserSt → ParserSt
  | 0, p => p
  | fuel + 1, p =>
    if p.current.tokenType ≠ .Eof then
      if p.previous.tokenType = .Semicolon then p
      else
        match p.current.tokenType with
        | .Class | .Fun | .Var | .For | .If | .While | .Print | .Return => p
        | _ => syncLoopF fuel (advance p)
    else p

/-- `synchronize` (compiler.rs lines 627-647). -/
def synchronizeF (fuel : ℕ) (p : ParserSt) : ParserSt :=
  syncLoopF fuel { p with panicMode := false }

/-- The trailing invalid-assignment check of `parse_precedence`
(compiler.rs lines 573-575). -/
def ppFinish (canAssign : Bool) (p : ParserSt) : ParserSt :=
  if canAssign then
    let (m, p) := matchTok p .Equal
    if m then errorAtPrev p "Invalid assignment target" else p
  else p

mutual

/-- `parse_precedence` (compiler.rs lines 544-576). -/
def parsePrecedence : ℕ → ℕ → ParserSt → ParserSt
  | 0, _, p => p
  | fuel + 1, prec, p =>
    let p := advance p
    let canAssign : Bool := decide (prec ≤ precAssignment)
    match (getRule p.previous.tokenType).pfn with
    | none => errorAtPrev p "Expect expression."
    | some pf => ppFinish canAssign (ppLoopF fuel prec canAssign (runPfx fuel pf canAssign p))

/-- Dispatch of the prefix rule found in the table (the function-pointer
call at compiler.rs line 552). -/
def runPfx : ℕ → PFn → Bool → ParserSt → ParserSt
  | 0, _, _, p => p
  | fuel + 1, pf, canAssign, p =>
    match pf with
    | .grouping => groupingFn fuel canAssign p
    | .unary => unaryFn fuel canAssign p
    | .varName => varNameFn fuel canAssign p
    | .stringLit => stringFn p
    | .numberLit => numberFn p
    | .literal => literalFn p

/-- The infix loop of `parse_precedence` (compiler.rs lines 559-571). -/
def ppLoopF : ℕ → ℕ → Bool → ParserSt → ParserSt
  | 0, _, _, p => p
  | fuel + 1, prec, canAssign, p =>
    if prec ≤ (getRule p.current.tokenType).prec then
      let p := advance p
      match (getRule p.previous.tokenType).ifn with
      | some .binary => ppLoopF fuel prec canAssign (binaryFn fuel canAssign p)
      | none => ppLoopF fuel prec canAssign p
    else p

/-- `binary` (compiler.rs lines 510-528): parse the right operand at
`rule.precedence + 1` (left associativity), then emit the operator's
opcode sequence. -/
def binaryFn : ℕ → Bool → ParserSt → ParserSt
  | 0, _, p => p
  | fuel + 1, _, p =>
    let opType := p.previous.tokenType
    let rule := getRule opType
    let p := parsePrecedence fuel (higherPrecedence rule.prec) p
    emitBytes p (binaryEmit opType)

/-- `unary` (compiler.rs lines 498-508). -/
def unaryFn : ℕ → Bool → ParserSt → ParserSt
  | 0, _, p => p
  | fuel + 1, _, p =>
    let opType := p.previous.tokenType
    let p := parsePrecedence fuel precUnary p
    match opType with
    | .Minus => emitByte p (opToByte .Negate)
    | .Bang => emitByte p (opToByte .Not)
    | _ => p

/-- `grouping` (compiler.rs lines 493-496). -/
def groupingFn : ℕ → Bool → ParserSt → ParserSt
  | 0, _, p => p
  | fuel + 1, _, p =>
    let p := expressionF fuel p
    consume p .Rightparen "Expect ')' after expression."

/-- `expression` (compiler.rs lines 458-460). -/
def expressionF : ℕ → ParserSt → ParserSt
  | 0, p => p
  | fuel + 1, p => parsePrecedence fuel precAssignment p

/-- `variable` (compiler.rs lines 679-681). -/
def varNameFn : ℕ → Bool → ParserSt → ParserSt
  | 0, _, p => p
  | fuel + 1, canAssign, p => namedVariable fuel p.previous canAssign p

/-- `named_variable` (compiler.rs lines 683-691): `&&` short-circuits,
so `match_token(Equal)` only runs when assignment is allowed. -/
def namedVariable : ℕ → Token → Bool → ParserSt → ParserSt
  | 0, _, _, p => p
  | fuel + 1, name, canAssign, p =>
    let (arg, p) := identifierConstant p name
    if canAssign then
      let (m, p) := matchTok p .Equal
      if m then
        let p := expressionF fuel p
        emitBytes p [opToByte .SetGlobal, arg]
      else emitBytes p [opToByte .GetGlobal, arg]
    else emitBytes p [opToByte .GetGlobal, arg]

/-- `declaration` (compiler.rs lines 591-601). -/
def declarationF : ℕ → ParserSt → ParserSt
  | 0, p => p
  | fuel + 1, p =>
    let (m, p) := matchTok p .Var
    let p := if m then varDeclF fuel p else statementF fuel p
    if p.panicMode then synchronizeF (p.toks.length + fuel + 1) p else p

/-- `statement` (compiler.rs lines 603-609). -/
def statementF : ℕ → ParserSt → ParserSt
  | 0, p => p
  | fuel + 1, p =>
    let (m, p) := matchTok p .Print
    if m then printStmtF fuel p else exprStmtF fuel p

/-- `print_statement` (compiler.rs lines 611-615). -/
def printStmtF : ℕ → ParserSt → ParserSt
  | 0, p => p
  | fuel + 1, p =>
    let p := expressionF fuel p
    let p := consume p .Semicolon "Expect ';' after value."
    emitByte p (opToByte .Print)

/-- `expression_statement` (compiler.rs lines 621-625). -/
def exprStmtF : ℕ → ParserSt → ParserSt
  | 0, p => p
  | fuel + 1, p =>
    let p := expressionF fuel p
    let p := consume p .Semicolon "Expect ';' after expression."
    emitByte p (opToByte .Pop)

/-- `variable_declaration` (compiler.rs lines 649-664). -/
def varDeclF : ℕ → ParserSt → ParserSt
  | 0, p => p
  | fuel + 1, p =>
    let (g, p) := parseVariable p "Expect a variable name."
    let (m, p) := matchTok p .Equal
    let p := if m then expressionF fuel p else emitByte p (opToByte .Nil)
    let p := consume p .Semicolon "Expect ';' after variable declaration"
    defineVariable p g

end

/-- The `while !match(Eof) { declaration }` loop of `compile`
(compiler.rs lines 698-700). -/
def compileLoopF : ℕ → ParserSt → ParserSt
  | 0, p => p
  | fuel + 1, p =>
    let (m, p) := matchTok p .Eof
    if m then p else compileLoopF fuel (declarationF fuel p)

/-- `compile` (compiler.rs lines 694-712) on a pre-scanned token list:
prime with one `advance`, run declarations to `Eof`, emit the trailing
`Return`.  The resulting state carries the chunk and `had_error`. -/
def compileToks (fuel : ℕ) (toks : List Token) (eofLine : ℕ) : ParserSt :=
  let p := initParser toks eofLine
  let p := advance p
  let p := compileLoopF fuel p
  emitByte p (opToByte .Return)

end Thorium

namespace Thorium

/-! ### VM (src/vm.rs)

The fetch-decode-execute loop.  The stack models the `Vec` with its top
at the head of the list.  `println!` output (including the VM's
"Stack Underflow" notices) goes to `out`; `eprintln!` output
(`runtime_error`) goes to `errOut`.  Rust panics — indexing past the end
of `code`/`constants`/`lines`, and the usize-underflowing
`ValueArray::peek` on an empty stack — surface as `crashed`.  The
`cfg!(debug_assertions)` trace printing is release-mode silent and not
modelled. -/

structure VmSt where
  chunk : Chunk
  ip : ℕ
  stack : List Value
  globals : List (String × Value)
  out : List String
  errOut : List String
deriving DecidableEq

/-- `Vm::init` (vm.rs lines 24-31). -/
def initVm (c : Chunk) : VmSt := ⟨c, 0, [], [], [], []⟩

/-- The four ways one loop iteration can end: fall through to the next
instruction, return `Ok(())`, return `Err(RuntimeError)`, or panic. -/
inductive StepRes where
  | next (s : VmSt)
  | haltOk (s : VmSt)
  | haltErr (s : VmSt)
  | crashed (s : VmSt)
deriving DecidableEq

/-- `HashMap::insert`: replace the binding if the key exists, else add it. -/
def gset : List (String × Value) → String → Value → List (String × Value)
  | [], k, v => [(k, v)]
  | (k', v') :: rest, k, v =>
    if k' = k then (k, v) :: rest else (k', v') :: gset rest k v

/-- `HashMap::get`. -/
def gget (g : List (String × Value)) (k : String) : Option Value :=
  (g.find? fun e => e.1 == k).map (·.2)

/-- `Vm::runtime_error` (vm.rs lines 265-271): two lines on standard
error, then reset the stack.  Reads `chunk.lines[ip - 1]`; `none` models
the panic should that index be out of range. -/
def runtimeError (s : VmSt) (msg : String) : Option VmSt :=
  match s.chunk.lines.get? (s.ip - 1) with
  | none => none
  | some line =>
    some { s with
           errOut := s.errOut ++ [msg, "[line " ++ toString line ++ "] in script"],
           stack := [] }

/-- `read_constant` (vm.rs lines 250-254): read the operand byte, then
index the pool; `none` models either indexing panic. -/
def readConstant (s : VmSt) : Option (Value × VmSt) :=
  match s.chunk.code.get? s.ip with
  | none => none
  | some idx =>
    let s := { s with ip := s.ip + 1 }
    (s.chunk.constants.get? idx).map fun v => (v, s)

/-- `binary_op` (vm.rs lines 231-242) combined with its dispatch
(vm.rs lines 77-92): pop two operands and push `op(a, b)` — with NO type
check — or, when fewer than two values are on the stack, report
"Operand must be a number" and return `Err(RuntimeError)`.  The failed
pops leave the stack empty and `runtime_error` resets it anyway. -/
def binaryOpStep (s : VmSt) (f : Value → Value → Value) : StepRes :=
  match s.stack with
  | b :: a :: rest => .next { s with stack := f a b :: rest }
  | _ =>
    match runtimeError { s with stack := [] } "Operand must be a number" with
    | none => .crashed s
    | some s' => .haltErr s'

/-- One iteration of `Vm::interpret`'s loop (vm.rs lines 41-204). -/
def vmStep (s : VmSt) : StepRes :=
  match s.chunk.code.get? s.ip with
  | none => .crashed s
  | some b =>
    let s := { s with ip := s.ip + 1 }
    match opOfByte b with
    | none => .haltErr s
    | some op =>
      match op with
      | .Return => .haltOk s
      | .Constant =>
        match readConstant s with
        | none => .crashed s
        | some (v, s) => .next { s with stack := v :: s.stack }
      | .Negate =>
        match s.stack with
        | v :: rest =>
          match v with
          | .Number n => .next { s with stack := .Number n.neg :: rest }
          | _ =>
            match runtimeError { s with stack := rest } "Operand must be a number" with
            | none => .crashed s
            | some s' => .haltErr s'
        | [] => .haltErr { s with out := s.out ++ ["Stack Underflow"] }
      | .Add => binaryOpStep s Value.add
      | .Subtract => binaryOpStep s Value.sub
      | .Divide => binaryOpStep s Value.div
      | .Multiply => binaryOpStep s Value.mul
      | .True => .next { s with stack := .Boolean true :: s.stack }
      | .False => .next { s with stack := .Boolean false :: s.stack }
      | .Nil => .next { s with stack := .Nil :: s.stack }
      | .Not =>
        match s.stack with
        | v :: rest =>
          match v with
          | .Boolean bv => .next { s with stack := .Boolean (!bv) :: rest }
          | .Nil => .next { s with stack := .Boolean true :: rest }
          | _ => .next { s with stack := .Boolean false :: rest }
        | [] =>
          match runtimeError s "Stack underflow" with
          | none => .crashed s
          | some s' => .haltErr s'
      | .Equal =>
        match s.stack with
        | b' :: a :: rest => .next { s with stack := .Boolean (a.eqv b') :: rest }
        | _ => .next { s with stack := [] }
      | .Greater =>
        match s.stack with
        | b' :: a :: rest => .next { s with stack := .Boolean (a.gtv b') :: rest }
        | _ => .next { s with stack := [] }
      | .Less =>
        match s.stack with
        | b' :: a :: rest => .next { s with stack := .Boolean (a.ltv b') :: rest }
        | _ => .next { s with stack := [] }
      | .Print =>
        match s.stack with
        | v :: rest => .next { s with stack := rest, out := s.out ++ [v.display] }
        | [] => .haltErr { s with out := s.out ++ ["Stack Underflow"] }
      | .Pop =>
        match s.stack with
        | _ :: rest => .next { s with stack := rest }
        | [] => .haltErr { s with out := s.out ++ ["Stack Underflow"] }
      | .DefineGlobal =>
        match readConstant s with
        | none => .crashed s
        | some (name, s) =>
          match name with
          | .DynamicString nm =>
            match s.stack with
            | v :: rest => .next { s with globals := gset s.globals nm v, stack := rest }
            | [] => .crashed s
          | _ => .haltErr { s with out := s.out ++ ["Variable specifier must be a string."] }
      | .GetGlobal =>
        match readConstant s with
        | none => .crashed s
        | some (name, s) =>
          match name with
          | .DynamicString nm =>
            match gget s.globals nm with
            | some v => .next { s with stack := v :: s.stack }
            | none => .haltErr { s with out := s.out ++ ["Variable " ++ nm ++ " is not known."] }
          | _ => .haltErr { s with out := s.out ++ ["Variable specifier must be a string."] }
      | .SetGlobal =>
        match readConstant s with
        | none => .crashed s
        | some (name, s) =>
          match name with
          | .DynamicString nm =>
            match s.stack with
            | [] => .crashed s
            | v :: _ =>
              match gget s.globals nm with
              | some _ => .next { s with globals := gset s.globals nm v }
              | none => .haltErr { s with out := s.out ++ ["Unknown variable."] }
          | _ => .haltErr { s with out := s.out ++ ["Variable specifier must be a string."] }

/-- How a whole run ends. -/
inductive RunRes where
  | ok | runtimeErr | crashed | fuelOut
deriving DecidableEq

/-- `Vm::interpret` (vm.rs lines 33-207): loop while `ip < code.len()`;
running off the end is `Ok(())`, as is `Return`. -/
def runF : ℕ → VmSt → RunRes × VmSt
  | 0, s => (.fuelOut, s)
  | fuel + 1, s =>
    if s.ip < s.chunk.code.length then
      match vmStep s with
      | .next s' => runF fuel s'
      | .haltOk s' => (.ok, s')
      | .haltErr s' => (.runtimeErr, s')
      | .crashed s' => (.crashed, s')
    else (.ok, s)

/-- Result of `vm::interpret(source)` as observed by `main.rs`
(`Ok` exits 0, `CompileError` exits 65, `RuntimeError` exits 70);
`crashed` is a Rust panic (process abort). -/
inductive InterpretRes where
  | ok | compileErr | runtimeErr | crashed | fuelOut
deriving DecidableEq

/-- `vm::interpret` (vm.rs lines 274-279): scan + compile, bail out on
`had_error`, otherwise run the chunk.  Returns the result together with
everything printed to standard output and to standard error. -/
def interpretSrc (fuel : ℕ) (source : String) :
    InterpretRes × List String × List String :=
  match scanAll source with
  | none => (.crashed, [], [])
  | some (toks, eofLine) =>
    let p := compileToks fuel toks eofLine
    if p.hadError then (.compileErr, [], p.errors)
    else
      match runF fuel (initVm p.chunk) with
      | (.ok, s) => (.ok, s.out, s.errOut)
      | (.runtimeErr, s) => (.runtimeErr, s.out, s.errOut)
      | (.crashed, s) => (.crashed, s.out, s.errOut)
      | (.fuelOut, s) => (.fuelOut, s.out, s.errOut)

end Thorium

namespace Thorium

/-! ### Claim-side apparatus -/

/-- The ten binary operators of the parse-rule table. -/
inductive BinOp where
  | plus | minus | star | slash | bangequal | equalequal
  | greater | greaterequal | less | lessequal
deriving DecidableEq

/-- Source text of a binary operator. -/
def BinOp.src : BinOp → String
  | .plus => "+" | .minus => "-" | .star => "*" | .slash => "/"
  | .bangequal => "!=" | .equalequal => "==" | .greater => ">"
  | .greaterequal => ">=" | .less => "<" | .lessequal => "<="

/-- Token kind of a binary operator. -/
def BinOp.tok : BinOp → TokenType
  | .plus => .Plus | .minus => .Minus | .star => .Star | .slash => .Slash
  | .bangequal => .Bangequal | .equalequal => .Equalequal
  | .greater => .Greater | .greaterequal => .Greaterequal
  | .less => .Less | .lessequal => .Lessequal

/-- Rule-table precedence of a binary operator. -/
def BinOp.prec (o : BinOp) : ℕ := (getRule o.tok).prec

/-- The token stream of the expression statement `1 op1 2 op2 3;`
(operator lexemes are never consulted by the parser). -/
def c2Toks (o1 o2 : BinOp) : List Token :=
  [⟨.Number, "1", 1⟩, ⟨o1.tok, o1.src, 1⟩, ⟨.Number, "2", 1⟩,
   ⟨o2.tok, o2.src, 1⟩, ⟨.Number, "3", 1⟩, ⟨.Semicolon, ";", 1⟩, ⟨.Eof, "", 1⟩]

/-- Scan and compile a source string; `none` is a scanner panic. -/
def compileSrc (source : String) : Option ParserSt :=
  (scanAll source).map fun p => compileToks 99 p.1 p.2

/-- Modelled from the spec: the bytecode the claim predicts for
`1 op1 2 op2 3;` — when `op1` has the precedence of `op2` or higher the
grouping is `(1 op1 2) op2 3` (left-associative), otherwise `op2` binds
tighter and the grouping is `1 op1 (2 op2 3)`. -/
def c2Expected (o1 o2 : BinOp) : List ℕ :=
  if o2.prec ≤ o1.prec then
    [opToByte .Constant, 0, opToByte .Constant, 1] ++ binaryEmit o1.tok ++
      [opToByte .Constant, 2] ++ binaryEmit o2.tok ++
      [opToByte .Pop, opToByte .Return]
  else
    [opToByte .Constant, 0, opToByte .Constant, 1, opToByte .Constant, 2] ++
      binaryEmit o2.tok ++ binaryEmit o1.tok ++
      [opToByte .Pop, opToByte .Return]

/-! ### Shared concrete-state helpers for the claim theorems -/

/-- A parser state over an otherwise fresh parser whose chunk already
holds `n` constants. -/
def parserWithConsts (n : ℕ) : ParserSt :=
  { initParser [] 1 with chunk := { Chunk.init with constants := List.replicate n .Nil } }

/-- A VM started on a one-line chunk with the given code, constant pool
and initial stack. -/
def vmOn (code : List ℕ) (consts : List Value) (stack : List Value) : VmSt :=
  ⟨⟨code, consts, code.map fun _ => 1⟩, 0, stack, [], [], []⟩

/-- The token stream the scanner produces for
`var a = "hi"; print a;` followed by a newline. -/
def hiToks : List Token :=
  [⟨.Var, "var", 1⟩, ⟨.Identifier, "a", 1⟩, ⟨.Equal, "=", 1⟩,
   ⟨.String, "\"hi\"", 1⟩, ⟨.Semicolon, ";", 1⟩, ⟨.Print, "print", 1⟩,
   ⟨.Identifier, "a", 1⟩, ⟨.Semicolon, ";", 1⟩, ⟨.Eof, "", 2⟩]

/-- The invariant: the chunk's byte array and line table have equal
length. -/
def PWf (p : ParserSt) : Prop := p.chunk.code.length = p.chunk.lines.length

end Thorium

namespace Thorium

set_option maxHeartbeats 8000000 in
/-- C2: for every expression statement `1 op1 2 op2 3;` over the rule
table's binary operators, compilation succeeds and emits the operator of
higher table precedence first; equal precedences group left-associatively
(`binary` parses its right operand at `rule.precedence + 1`). -/
theorem precedence_assoc_table :
    ∀ o1 o2 : BinOp,
      (fun p => (p.hadError, p.chunk.code, p.chunk.constants))
          (compileToks 40 (c2Toks o1 o2) 1) =
        (false, c2Expected o1 o2,
          [.Number (Q.ofNat 1), .Number (Q.ofNat 2), .Number (Q.ofNat 3)]) := by
  intro o1 o2
  cases o1 <;> cases o2 <;> decide

end Thorium

namespace Thorium

set_option maxRecDepth 16000 in
/-- C3 (counterexample): with 255 constants already pooled, adding the
256th is accepted — it gets index 255 and raises no error, contrary to
the claim that the 256th distinct constant is a compile error. -/
theorem constant_256_accepted :
    (makeConstant (parserWithConsts 255) (.Number (Q.ofNat 7))).1 = 255 ∧
    (makeConstant (parserWithConsts 255) (.Number (Q.ofNat 7))).2.hadError = false := by
  decide

/-- C3 (amended): `make_constant` hands out the old pool length as the
index and only errors once that index exceeds 255 — i.e. on the 257th
addition, which reports "Too many constants in one chunk" and yields 0;
the pool itself still grows. -/
theorem constant_overflow_at_257 :
    ∀ (p : ParserSt) (v : Value),
      (p.chunk.constants.length ≤ 255 →
        (makeConstant p v).1 = p.chunk.constants.length ∧
        (makeConstant p v).2.hadError = p.hadError) ∧
      (256 ≤ p.chunk.constants.length →
        (makeConstant p v).1 = 0 ∧
        (makeConstant p v).2.hadError = true ∧
        (p.panicMode = false →
          (makeConstant p v).2.errors =
            p.errors ++ [errLine p.previous "Too many constants in one chunk"])) ∧
      (makeConstant p v).2.chunk.constants = p.chunk.constants ++ [v] := by
  intro p v
  refine ⟨fun h => ?_, fun h => ?_, ?_⟩
  · simp only [makeConstant, Chunk.addConstant]
    rw [if_neg (by omega)]
    exact ⟨rfl, rfl⟩
  · simp only [makeConstant, Chunk.addConstant]
    rw [if_pos (by omega)]
    refine ⟨rfl, ?_, fun hpm => ?_⟩
    · simp only [errorAtPrev]
      split <;> rfl
    · simp [errorAtPrev, hpm]
  · simp only [makeConstant, Chunk.addConstant]
    split
    · simp only [errorAtPrev]
      split <;> rfl
    · rfl

set_option maxRecDepth 16000 in
/-- C3 (witness): the amended theorem applied at a pool of 3 constants
(index 3, no error) and at a pool of 256 (index 0, error). -/
theorem constant_overflow_at_257_witness :
    (makeConstant (parserWithConsts 3) .Nil).1 = 3 ∧
    (makeConstant (parserWithConsts 256) .Nil).1 = 0 :=
  ⟨by
    have h := ((constant_overflow_at_257 (parserWithConsts 3) .Nil).1 (by decide)).1
    simpa using h,
   ((constant_overflow_at_257 (parserWithConsts 256) .Nil).2.1 (by decide)).1⟩

/-- C4 (counterexample): executing `Equal` on an empty stack does NOT
return `RuntimeError` — the dispatch discards `equal_op`'s error and the
run continues to `Return`, ending in `Ok`. -/
theorem equal_underflow_continues :
    (runF 9 (vmOn [opToByte .Equal, opToByte .Return] [] [])).1 = .ok ∧
    RunRes.ok ≠ RunRes.runtimeErr := by
  decide

/-- C4 (amended): on stack underflow, `Pop`, `Print`, `Negate`, `Not`
and the four arithmetic opcodes return `RuntimeError`; `Equal`,
`Greater` and `Less` swallow the error and execution continues
(finishing `Ok` here); `DefineGlobal` and `SetGlobal` panic inside
`ValueArray::peek` (out-of-bounds index) instead of erroring. -/
theorem underflow_behaviour_per_opcode :
    (runF 9 (vmOn [opToByte .Pop] [] [])).1 = .runtimeErr ∧
    (runF 9 (vmOn [opToByte .Print] [] [])).1 = .runtimeErr ∧
    (runF 9 (vmOn [opToByte .Negate] [] [])).1 = .runtimeErr ∧
    (runF 9 (vmOn [opToByte .Not] [] [])).1 = .runtimeErr ∧
    (runF 9 (vmOn [opToByte .Add] [] [])).1 = .runtimeErr ∧
    (runF 9 (vmOn [opToByte .Subtract] [] [])).1 = .runtimeErr ∧
    (runF 9 (vmOn [opToByte .Multiply] [] [])).1 = .runtimeErr ∧
    (runF 9 (vmOn [opToByte .Divide] [] [])).1 = .runtimeErr ∧
    (runF 9 (vmOn [opToByte .Add] [] [.Number (Q.ofNat 1)])).1 = .runtimeErr ∧
    (runF 9 (vmOn [opToByte .Equal, opToByte .Return] [] [])).1 = .ok ∧
    (runF 9 (vmOn [opToByte .Greater, opToByte .Return] [] [])).1 = .ok ∧
    (runF 9 (vmOn [opToByte .Less, opToByte .Return] [] [])).1 = .ok ∧
    (runF 9 (vmOn [opToByte .Equal, opToByte .Return] [] [.Nil])).1 = .ok ∧
    (runF 9 (vmOn [opToByte .DefineGlobal, 0] [.DynamicString "x"] [])).1 = .crashed ∧
    (runF 9 (vmOn [opToByte .SetGlobal, 0] [.DynamicString "x"] [])).1 = .crashed := by
  decide

/-- C5: `scan_token` does not always return — `peek_next` guards with
`is_at_end` but reads `source[current + 1]`, so a source whose last
character is `/` (the comment check) or a digit run followed by a final
`.` (the fraction check) indexes out of bounds and the process panics;
`interpret` on those sources aborts instead of returning a result. -/
theorem scanner_peek_next_crash :
    interpretSrc 99 "/" = (.crashed, [], []) ∧
    interpretSrc 99 "1." = (.crashed, [], []) ∧
    scanTok (initScan "/") = none ∧
    scanTok (initScan "1.") = none := by
  have h1 : scanAll "/" = none := by decide
  have h2 : scanAll "1." = none := by decide
  exact ⟨by simp [interpretSrc, h1], by simp [interpretSrc, h2], by decide, by decide⟩

/-- C6 (counterexample): the literal `16777217` (2^24 + 1) compiles to
the constant `16777216` — the lexeme is parsed as an `f32` (binary32,
24-bit significand), not as the claim's 64-bit double, which would
represent it exactly. -/
theorem literal_16777217_rounds :
    (scanAll "16777217;").map (fun p => (compileToks 99 p.1 p.2).chunk.constants) =
      some [.Number (Q.ofNat 16777216)] ∧
    parseF64Spec "16777217".data = some (Q.ofNat 16777217) ∧
    Q.ofNat 16777216 ≠ Q.ofNat 16777217 := by
  have hs : scanAll "16777217;" =
      some ([⟨.Number, "16777217", 1⟩, ⟨.Semicolon, ";", 1⟩, ⟨.Eof, "", 1⟩], 1) := by
    decide
  exact ⟨by rw [hs]; decide, by decide, by decide⟩

/-- C6 (amended): `Value::Number` is an `f32`; the `number` production
parses the lexeme as IEEE-754 binary32.  `16777216` (= 2^24) is stored
exactly, while `16777217` rounds to `16777216`. -/
theorem number_parses_binary32 :
    parseF32 "16777217".data = some (Q.ofNat 16777216) ∧
    parseF32 "16777216".data = some (Q.ofNat 16777216) ∧
    parseF32 "2.5".data = some ⟨5, 2⟩ ∧
    (scanAll "16777216;").map (fun p => (compileToks 99 p.1 p.2).chunk.constants) =
      some [.Number (Q.ofNat 16777216)] ∧
    (scanAll "16777217;").map (fun p => (compileToks 99 p.1 p.2).chunk.constants) =
      some [.Number (Q.ofNat 16777216)] := by
  have hs : scanAll "16777217;" =
      some ([⟨.Number, "16777217", 1⟩, ⟨.Semicolon, ";", 1⟩, ⟨.Eof, "", 1⟩], 1) := by
    decide
  have hs' : scanAll "16777216;" =
      some ([⟨.Number, "16777216", 1⟩, ⟨.Semicolon, ";", 1⟩, ⟨.Eof, "", 1⟩], 1) := by
    decide
  exact ⟨by decide, by decide, by decide, by rw [hs']; decide, by rw [hs]; decide⟩

/-- C8: the compound comparison operators desugar exactly as claimed:
`!=` emits `Equal` then `Not`, `<=` emits `Greater` then `Not`, and
`>=` emits `Less` then `Not` — each bytecode-equivalent to its base
operator followed by logical negation, shown both on `binary`'s
emission table and on whole compiled statements. -/
theorem compound_desugaring :
    binaryEmit .Bangequal = binaryEmit .Equalequal ++ [opToByte .Not] ∧
    binaryEmit .Lessequal = binaryEmit .Greater ++ [opToByte .Not] ∧
    binaryEmit .Greaterequal = binaryEmit .Less ++ [opToByte .Not] ∧
    (compileToks 40 [⟨.Number, "1", 1⟩, ⟨.Bangequal, "!=", 1⟩, ⟨.Number, "2", 1⟩,
        ⟨.Semicolon, ";", 1⟩, ⟨.Eof, "", 1⟩] 1).chunk.code =
      [opToByte .Constant, 0, opToByte .Constant, 1, opToByte .Equal,
       opToByte .Not, opToByte .Pop, opToByte .Return] ∧
    (compileToks 40 [⟨.Number, "1", 1⟩, ⟨.Equalequal, "==", 1⟩, ⟨.Number, "2", 1⟩,
        ⟨.Semicolon, ";", 1⟩, ⟨.Eof, "", 1⟩] 1).chunk.code =
      [opToByte .Constant, 0, opToByte .Constant, 1, opToByte .Equal,
       opToByte .Pop, opToByte .Return] ∧
    (compileToks 40 [⟨.Number, "1", 1⟩, ⟨.Lessequal, "<=", 1⟩, ⟨.Number, "2", 1⟩,
        ⟨.Semicolon, ";", 1⟩, ⟨.Eof, "", 1⟩] 1).chunk.code =
      [opToByte .Constant, 0, opToByte .Constant, 1, opToByte .Greater,
       opToByte .Not, opToByte .Pop, opToByte .Return] ∧
    (compileToks 40 [⟨.Number, "1", 1⟩, ⟨.Greater, ">", 1⟩, ⟨.Number, "2", 1⟩,
        ⟨.Semicolon, ";", 1⟩, ⟨.Eof, "", 1⟩] 1).chunk.code =
      [opToByte .Constant, 0, opToByte .Constant, 1, opToByte .Greater,
       opToByte .Pop, opToByte .Return] ∧
    (compileToks 40 [⟨.Number, "1", 1⟩, ⟨.Greaterequal, ">=", 1⟩, ⟨.Number, "2", 1⟩,
        ⟨.Semicolon, ";", 1⟩, ⟨.Eof, "", 1⟩] 1).chunk.code =
      [opToByte .Constant, 0, opToByte .Constant, 1, opToByte .Less,
       opToByte .Not, opToByte .Pop, opToByte .Return] ∧
    (compileToks 40 [⟨.Number, "1", 1⟩, ⟨.Less, "<", 1⟩, ⟨.Number, "2", 1⟩,
        ⟨.Semicolon, ";", 1⟩, ⟨.Eof, "", 1⟩] 1).chunk.code =
      [opToByte .Constant, 0, opToByte .Constant, 1, opToByte .Less,
       opToByte .Pop, opToByte .Return] := by
  decide

end Thorium

namespace Thorium

/-- C7 (counterexample): `var a = "hi"; print a;` does not print `hi`
and exit 0 — on that exact 22-character source the scanner panics in
`check_keyword` (the keyword slice for the final `a` runs past the end
of the source), so the process aborts with no output at all. -/
theorem hi_program_not_ok :
    ¬ ((interpretSrc 99 "var a = \"hi\"; print a;").1 = .ok ∧
       (interpretSrc 99 "var a = \"hi\"; print a;").2.1 = ["hi"]) := by
  have hs : scanAll "var a = \"hi\"; print a;" = none := by decide
  simp [interpretSrc, hs]

/-- C7 (amended): the `string` production stores the token's FULL
lexeme, surrounding double quotes included.  With a trailing newline
(which spares the `check_keyword` slice panic on the final `a`), the
program runs to completion, exits 0, and prints `"hi"` — quotes and all
(`"hi"` is the 4-character string); without the newline the scanner
panics. -/
theorem string_keeps_quotes :
    interpretSrc 99 "var a = \"hi\"; print a;\n" = (.ok, ["\"hi\""], []) ∧
    interpretSrc 99 "var a = \"hi\"; print a;" = (.crashed, [], []) ∧
    (compileToks 99 [⟨.String, "\"hi\"", 1⟩, ⟨.Semicolon, ";", 1⟩, ⟨.Eof, "", 1⟩]
        1).chunk.constants = [.DynamicString "\"hi\""] := by
  have hs : scanAll "var a = \"hi\"; print a;\n" = some (hiToks, 2) := by decide
  have hx : scanAll "var a = \"hi\"; print a;" = none := by decide
  have hc : compileToks 99 hiToks 2 =
      ⟨⟨[1, 1, 16, 0, 17, 2, 14, 0],
        [.DynamicString "a", .DynamicString "\"hi\"", .DynamicString "a"],
        [1, 1, 1, 1, 1, 1, 1, 2]⟩,
       ⟨.Eof, "", 2⟩, ⟨.Eof, "", 2⟩, [], 2, false, false, []⟩ := by decide
  refine ⟨?_, by simp [interpretSrc, hx], by decide⟩
  simp only [interpretSrc, hs, hc]
  decide

end Thorium

namespace Thorium

/-- C1 (counterexample): `Add` on two Booleans raises no runtime error —
the run finishes `Ok` with `Boolean true` on the stack and nothing on
standard error, contrary to the claimed "Operand must be a number" /
stack-reset / `RuntimeError` behaviour. -/
theorem add_boolean_no_error :
    (runF 9 (vmOn [opToByte .True, opToByte .True, opToByte .Add, opToByte .Return] [] [])).1
      = .ok ∧
    (runF 9 (vmOn [opToByte .True, opToByte .True, opToByte .Add, opToByte .Return] [] [])).2.stack
      = [.Boolean true] ∧
    (runF 9 (vmOn [opToByte .True, opToByte .True, opToByte .Add, opToByte .Return] [] [])).2.errOut
      = [] := by
  decide

/-- C1 (amended): only `Negate` enforces the `Number` type — a
non-`Number` operand prints "Operand must be a number" and
"[line N] in script" on standard error, resets the stack to empty, and
returns `RuntimeError`.  The four arithmetic opcodes pop two values with
no type check and push the `Value`-arithmetic result, and `Greater` /
`Less` push a Boolean; execution continues in all those cases (the
"Operand must be a number" message accompanies only their stack
underflow, not a type error). -/
theorem negate_only_type_error (s : VmSt) :
    (∀ v rest L, s.chunk.code[s.ip]? = some (opToByte .Negate) →
        s.chunk.lines[s.ip]? = some L →
        s.stack = v :: rest → (∀ n, v ≠ .Number n) →
        vmStep s = .haltErr
          { s with
            ip := s.ip + 1
            stack := []
            errOut := s.errOut ++ ["Operand must be a number",
                                   "[line " ++ toString L ++ "] in script"] }) ∧
    (∀ a b rest, s.chunk.code[s.ip]? = some (opToByte .Add) → s.stack = b :: a :: rest →
        vmStep s = .next { s with ip := s.ip + 1, stack := Value.add a b :: rest }) ∧
    (∀ a b rest, s.chunk.code[s.ip]? = some (opToByte .Subtract) → s.stack = b :: a :: rest →
        vmStep s = .next { s with ip := s.ip + 1, stack := Value.sub a b :: rest }) ∧
    (∀ a b rest, s.chunk.code[s.ip]? = some (opToByte .Multiply) → s.stack = b :: a :: rest →
        vmStep s = .next { s with ip := s.ip + 1, stack := Value.mul a b :: rest }) ∧
    (∀ a b rest, s.chunk.code[s.ip]? = some (opToByte .Divide) → s.stack = b :: a :: rest →
        vmStep s = .next { s with ip := s.ip + 1, stack := Value.div a b :: rest }) ∧
    (∀ a b rest, s.chunk.code[s.ip]? = some (opToByte .Greater) → s.stack = b :: a :: rest →
        vmStep s = .next { s with ip := s.ip + 1, stack := .Boolean (a.gtv b) :: rest }) ∧
    (∀ a b rest, s.chunk.code[s.ip]? = some (opToByte .Less) → s.stack = b :: a :: rest →
        vmStep s = .next { s with ip := s.ip + 1, stack := .Boolean (a.ltv b) :: rest }) := by
  refine ⟨?_, ?_, ?_, ?_, ?_, ?_, ?_⟩
  · intro v rest L hcode hlines hstack hv
    cases v with
    | Number n => exact absurd rfl (hv n)
    | Boolean b =>
      simp [vmStep, hcode, opToByte, opOfByte, hstack, runtimeError, hlines]
    | Nil =>
      simp [vmStep, hcode, opToByte, opOfByte, hstack, runtimeError, hlines]
    | DynamicString str =>
      simp [vmStep, hcode, opToByte, opOfByte, hstack, runtimeError, hlines]
  all_goals
    intro a b rest hcode hstack
    simp [vmStep, hcode, opToByte, opOfByte, hstack, binaryOpStep]

/-- C1 (witness): the Negate conjunct of the amended theorem applied to
a concrete state with a Boolean on top of the stack. -/
theorem negate_only_type_error_witness :
    vmStep ⟨⟨[opToByte .Negate], [], [7]⟩, 0, [.Boolean true], [], [], []⟩ =
      .haltErr ⟨⟨[opToByte .Negate], [], [7]⟩, 1, [], [],
        [], ["Operand must be a number", "[line 7] in script"]⟩ := by
  have h := (negate_only_type_error
      ⟨⟨[opToByte .Negate], [], [7]⟩, 0, [.Boolean true], [], [], []⟩).1
    (.Boolean true) [] 7 (by decide) (by decide) rfl (fun n h => Value.noConfusion h)
  simpa using h

/-- C10: with two strings on the stack (`a` below, `b` on top),
`Greater` and `Less` succeed (no runtime error) and push the Boolean
comparison of the two LENGTHS — `Value`'s `partial_cmp` compares
`a.len()` with `b.len()`, so the strings' contents are never consulted,
let alone compared lexicographically. -/
theorem string_compare_by_length (s : VmSt) (a b : String) (rest : List Value) :
    s.stack = .DynamicString b :: .DynamicString a :: rest →
    (s.chunk.code[s.ip]? = some (opToByte .Greater) →
      vmStep s = .next
        { s with
          ip := s.ip + 1
          stack := .Boolean (decide (b.length < a.length)) :: rest }) ∧
    (s.chunk.code[s.ip]? = some (opToByte .Less) →
      vmStep s = .next
        { s with
          ip := s.ip + 1
          stack := .Boolean (decide (a.length < b.length)) :: rest }) := by
  intro hstack
  have hgt : Value.gtv (.DynamicString a) (.DynamicString b) = decide (b.length < a.length) := by
    simp only [Value.gtv, Value.pcmp]
    rcases Nat.lt_trichotomy a.length b.length with h | h | h
    · rw [Nat.compare_eq_lt.mpr h, decide_eq_false (by omega : ¬b.length < a.length)]
      rfl
    · rw [Nat.compare_eq_eq.mpr h, decide_eq_false (by omega : ¬b.length < a.length)]
      rfl
    · rw [Nat.compare_eq_gt.mpr h, decide_eq_true h]
      rfl
  have hlt : Value.ltv (.DynamicString a) (.DynamicString b) = decide (a.length < b.length) := by
    simp only [Value.ltv, Value.pcmp]
    rcases Nat.lt_trichotomy a.length b.length with h | h | h
    · rw [Nat.compare_eq_lt.mpr h, decide_eq_true h]
      rfl
    · rw [Nat.compare_eq_eq.mpr h, decide_eq_false (by omega : ¬a.length < b.length)]
      rfl
    · rw [Nat.compare_eq_gt.mpr h, decide_eq_false (by omega : ¬a.length < b.length)]
      rfl
  constructor
  · intro hcode
    simp [vmStep, hcode, opToByte, opOfByte, hstack, hgt]
  · intro hcode
    simp [vmStep, hcode, opToByte, opOfByte, hstack, hlt]

/-- C10 (witness): the theorem applied to "abc" (below) vs "xy" (top):
`Greater` pushes `true` because 3 > 2, length order, not lexicographic
order. -/
theorem string_compare_by_length_witness :
    vmStep ⟨⟨[opToByte .Greater], [], [1]⟩, 0,
        [.DynamicString "xy", .DynamicString "abc"], [], [], []⟩ =
      .next ⟨⟨[opToByte .Greater], [], [1]⟩, 1, [.Boolean true], [], [], []⟩ := by
  have h := (string_compare_by_length
      ⟨⟨[opToByte .Greater], [], [1]⟩, 0,
        [.DynamicString "xy", .DynamicString "abc"], [], [], []⟩
      "abc" "xy" [] rfl).1 (by decide)
  simpa using h

end Thorium

namespace Thorium

/-! ### The code/lines lockstep invariant (C9)

`Chunk.write` is the only operation that touches `code` or `lines`, and
it extends both by one entry; `add_constant` touches neither.  The
lemmas below push the resulting invariant — `code` and `lines` always
have equal length — through every compiler function, by mutual
induction on the parser's fuel. -/

theorem pwf_of_chunk_eq {p q : ParserSt} (h : q.chunk = p.chunk) (hw : PWf p) :
    PWf q := by
  unfold PWf
  rw [h]
  exact hw

theorem chunk_errorAtCurrent (p : ParserSt) (m : String) :
    (errorAtCurrent p m).chunk = p.chunk := by
  dsimp only [errorAtCurrent]
  split <;> rfl

theorem chunk_errorAtPrev (p : ParserSt) (m : String) :
    (errorAtPrev p m).chunk = p.chunk := by
  dsimp only [errorAtPrev]
  split <;> rfl

theorem chunk_errFold (es : List Token) (p : ParserSt) :
    (es.foldl (fun p e => errorAtCurrent { p with current := e } e.lexeme) p).chunk
      = p.chunk := by
  induction es generalizing p with
  | nil => rfl
  | cons e es ih =>
    rw [List.foldl_cons, ih]
    exact chunk_errorAtCurrent _ _

theorem chunk_advance (p : ParserSt) : (advance p).chunk = p.chunk := by
  unfold advance
  rcases hs : splitErrors p.eofLine p.toks with ⟨es, t, rest⟩
  simp only [hs]
  exact chunk_errFold es _

theorem chunk_consume (p : ParserSt) (tt : TokenType) (m : String) :
    (consume p tt m).chunk = p.chunk := by
  unfold consume
  split
  · exact chunk_advance p
  · exact chunk_errorAtCurrent p m

theorem chunk_matchTok (p : ParserSt) (tt : TokenType) :
    (matchTok p tt).2.chunk = p.chunk := by
  unfold matchTok
  split
  · exact chunk_advance p
  · rfl

theorem chunk_syncLoopF (fuel : ℕ) (p : ParserSt) :
    (syncLoopF fuel p).chunk = p.chunk := by
  induction fuel generalizing p with
  | zero => rfl
  | succ n ih =>
    unfold syncLoopF
    split
    · split
      · rfl
      · split <;> first | rfl | (rw [ih]; exact chunk_advance p)
    · rfl

theorem chunk_synchronizeF (fuel : ℕ) (p : ParserSt) :
    (synchronizeF fuel p).chunk = p.chunk := by
  unfold synchronizeF
  exact chunk_syncLoopF fuel _

theorem pwf_emitByte (p : ParserSt) (b : ℕ) (h : PWf p) : PWf (emitByte p b) := by
  unfold PWf emitByte Chunk.write at *
  simp only [List.length_append, List.length_cons, List.length_nil]
  omega

theorem pwf_emitBytes (p : ParserSt) (bs : List ℕ) (h : PWf p) :
    PWf (emitBytes p bs) := by
  unfold emitBytes
  induction bs generalizing p with
  | nil => exact h
  | cons b bs ih =>
    rw [List.foldl_cons]
    exact ih _ (pwf_emitByte p b h)

theorem pwf_makeConstant (p : ParserSt) (v : Value) (h : PWf p) :
    PWf (makeConstant p v).2 := by
  dsimp only [makeConstant, Chunk.addConstant]
  split
  · exact pwf_of_chunk_eq (chunk_errorAtPrev _ _) h
  · exact h

theorem pwf_emitConstant (p : ParserSt) (v : Value) (h : PWf p) :
    PWf (emitConstant p v) := by
  dsimp only [emitConstant]
  exact pwf_emitBytes _ _ (pwf_makeConstant p v h)

theorem pwf_numberFn (p : ParserSt) (h : PWf p) : PWf (numberFn p) := by
  dsimp only [numberFn]
  split
  · exact pwf_emitConstant _ _ h
  · exact h

theorem pwf_stringFn (p : ParserSt) (h : PWf p) : PWf (stringFn p) := by
  dsimp only [stringFn]
  exact pwf_emitConstant _ _ h

theorem pwf_literalFn (p : ParserSt) (h : PWf p) : PWf (literalFn p) := by
  dsimp only [literalFn]
  split <;> first | exact pwf_emitByte _ _ h | exact h

theorem pwf_identifierConstant (p : ParserSt) (t : Token) (h : PWf p) :
    PWf (identifierConstant p t).2 := by
  dsimp only [identifierConstant]
  exact pwf_makeConstant _ _ h

theorem pwf_parseVariable (p : ParserSt) (err : String) (h : PWf p) :
    PWf (parseVariable p err).2 := by
  dsimp only [parseVariable]
  exact pwf_identifierConstant _ _ (pwf_of_chunk_eq (chunk_consume p _ err) h)

theorem pwf_defineVariable (p : ParserSt) (g : ℕ) (h : PWf p) :
    PWf (defineVariable p g) := by
  dsimp only [defineVariable]
  exact pwf_emitBytes _ _ h

theorem pwf_ppFinish (ca : Bool) (p : ParserSt) (h : PWf p) :
    PWf (ppFinish ca p) := by
  dsimp only [ppFinish]
  rcases hm : matchTok p .Equal with ⟨m, p1⟩
  have h1 : PWf p1 := by
    have := chunk_matchTok p .Equal
    rw [hm] at this
    exact pwf_of_chunk_eq this h
  split
  · simp only [hm]
    split
    · exact pwf_of_chunk_eq (chunk_errorAtPrev _ _) h1
    · exact h1
  · exact h

/-- The invariant survives every mutually recursive parser function. -/
theorem pwf_mutual (fuel : ℕ) :
    (∀ prec p, PWf p → PWf (parsePrecedence fuel prec p)) ∧
    (∀ pf ca p, PWf p → PWf (runPfx fuel pf ca p)) ∧
    (∀ prec ca p, PWf p → PWf (ppLoopF fuel prec ca p)) ∧
    (∀ ca p, PWf p → PWf (binaryFn fuel ca p)) ∧
    (∀ ca p, PWf p → PWf (unaryFn fuel ca p)) ∧
    (∀ ca p, PWf p → PWf (groupingFn fuel ca p)) ∧
    (∀ p, PWf p → PWf (expressionF fuel p)) ∧
    (∀ ca p, PWf p → PWf (varNameFn fuel ca p)) ∧
    (∀ t ca p, PWf p → PWf (namedVariable fuel t ca p)) ∧
    (∀ p, PWf p → PWf (declarationF fuel p)) ∧
    (∀ p, PWf p → PWf (statementF fuel p)) ∧
    (∀ p, PWf p → PWf (printStmtF fuel p)) ∧
    (∀ p, PWf p → PWf (exprStmtF fuel p)) ∧
    (∀ p, PWf p → PWf (varDeclF fuel p)) := by
  induction fuel with
  | zero =>
    exact ⟨fun _ p h => h, fun _ _ p h => h, fun _ _ p h => h, fun _ p h => h,
           fun _ p h => h, fun _ p h => h, fun p h => h, fun _ p h => h,
           fun _ _ p h => h, fun p h => h, fun p h => h, fun p h => h,
           fun p h => h, fun p h => h⟩
  | succ n ih =>
    obtain ⟨ihPP, ihPfx, ihLoop, ihBin, ihUn, ihGr, ihExp, ihVar, ihNamed,
            ihDecl, ihStmt, ihPrint, ihExprS, ihVarD⟩ := ih
    refine ⟨?_, ?_, ?_, ?_, ?_, ?_, ?_, ?_, ?_, ?_, ?_, ?_, ?_, ?_⟩
    · -- parsePrecedence
      intro prec p h
      dsimp only [parsePrecedence]
      have h1 : PWf (advance p) := pwf_of_chunk_eq (chunk_advance p) h
      split
      · exact pwf_of_chunk_eq (chunk_errorAtPrev _ _) h1
      · exact pwf_ppFinish _ _ (ihLoop _ _ _ (ihPfx _ _ _ h1))
    · -- runPfx
      intro pf ca p h
      dsimp only [runPfx]
      cases pf
      · exact ihGr _ _ h
      · exact ihUn _ _ h
      · exact ihVar _ _ h
      · exact pwf_stringFn _ h
      · exact pwf_numberFn _ h
      · exact pwf_literalFn _ h
    · -- ppLoopF
      intro prec ca p h
      dsimp only [ppLoopF]
      split
      · have h1 : PWf (advance p) := pwf_of_chunk_eq (chunk_advance p) h
        split
        · exact ihLoop _ _ _ (ihBin _ _ h1)
        · exact ihLoop _ _ _ h1
      · exact h
    · -- binaryFn
      intro ca p h
      dsimp only [binaryFn]
      exact pwf_emitBytes _ _ (ihPP _ _ h)
    · -- unaryFn
      intro ca p h
      dsimp only [unaryFn]
      have h1 := ihPP precUnary p h
      split
      · exact pwf_emitByte _ _ h1
      · exact pwf_emitByte _ _ h1
      · exact h1
    · -- groupingFn
      intro ca p h
      dsimp only [groupingFn]
      exact pwf_of_chunk_eq (chunk_consume _ _ _) (ihExp _ h)
    · -- expressionF
      intro p h
      dsimp only [expressionF]
      exact ihPP _ _ h
    · -- varNameFn
      intro ca p h
      dsimp only [varNameFn]
      exact ihNamed _ _ _ h
    · -- namedVariable
      intro t ca p h
      dsimp only [namedVariable]
      rcases hI : identifierConstant p t with ⟨arg, p1⟩
      have h1 : PWf p1 := by
        have := pwf_identifierConstant p t h
        rw [hI] at this
        exact this
      simp only [hI]
      split
      · rcases hM : matchTok p1 .Equal with ⟨m, p2⟩
        have h2 : PWf p2 := by
          have := chunk_matchTok p1 .Equal
          rw [hM] at this
          exact pwf_of_chunk_eq this h1
        simp only [hM]
        split
        · exact pwf_emitBytes _ _ (ihExp _ h2)
        · exact pwf_emitBytes _ _ h2
      · exact pwf_emitBytes _ _ h1
    · -- declarationF
      intro p h
      dsimp only [declarationF]
      rcases hM : matchTok p .Var with ⟨m, p1⟩
      have h1 : PWf p1 := by
        have := chunk_matchTok p .Var
        rw [hM] at this
        exact pwf_of_chunk_eq this h
      simp only [hM]
      split
      · have h2 := ihVarD p1 h1
        split
        · exact pwf_of_chunk_eq (chunk_synchronizeF _ _) h2
        · exact h2
      · have h2 := ihStmt p1 h1
        split
        · exact pwf_of_chunk_eq (chunk_synchronizeF _ _) h2
        · exact h2
    · -- statementF
      intro p h
      dsimp only [statementF]
      rcases hM : matchTok p .Print with ⟨m, p1⟩
      have h1 : PWf p1 := by
        have := chunk_matchTok p .Print
        rw [hM] at this
        exact pwf_of_chunk_eq this h
      simp only [hM]
      split
      · exact ihPrint _ h1
      · exact ihExprS _ h1
    · -- printStmtF
      intro p h
      dsimp only [printStmtF]
      exact pwf_emitByte _ _ (pwf_of_chunk_eq (chunk_consume _ _ _) (ihExp _ h))
    · -- exprStmtF
      intro p h
      dsimp only [exprStmtF]
      exact pwf_emitByte _ _ (pwf_of_chunk_eq (chunk_consume _ _ _) (ihExp _ h))
    · -- varDeclF
      intro p h
      dsimp only [varDeclF]
      rcases hP : parseVariable p "Expect a variable name." with ⟨g, p1⟩
      have h1 : PWf p1 := by
        have := pwf_parseVariable p "Expect a variable name." h
        rw [hP] at this
        exact this
      simp only [hP]
      rcases hM : matchTok p1 .Equal with ⟨m, p2⟩
      have h2 : PWf p2 := by
        have := chunk_matchTok p1 .Equal
        rw [hM] at this
        exact pwf_of_chunk_eq this h1
      simp only [hM]
      have h3 : PWf (if m = true then expressionF n p2
          else emitByte p2 (opToByte .Nil)) := by
        split
        · exact ihExp _ h2
        · exact pwf_emitByte _ _ h2
      exact pwf_defineVariable _ _ (pwf_of_chunk_eq (chunk_consume _ _ _) h3)

theorem pwf_declarationF (fuel : ℕ) (p : ParserSt) (h : PWf p) :
    PWf (declarationF fuel p) :=
  (pwf_mutual fuel).2.2.2.2.2.2.2.2.2.1 p h

theorem pwf_compileLoopF (fuel : ℕ) (p : ParserSt) (h : PWf p) :
    PWf (compileLoopF fuel p) := by
  induction fuel generalizing p with
  | zero => exact h
  | succ n ih =>
    dsimp only [compileLoopF]
    rcases hM : matchTok p .Eof with ⟨m, p1⟩
    have h1 : PWf p1 := by
      have := chunk_matchTok p .Eof
      rw [hM] at this
      exact pwf_of_chunk_eq this h
    simp only [hM]
    split
    · exact h1
    · exact ih _ (pwf_declarationF n p1 h1)

/-- C9: `chunk.code` and `chunk.lines` stay in lockstep — `Chunk::write`
appends one byte and one line number, `add_constant` touches neither
array, and the chunk produced by `compile` (which only writes through
`Chunk::write`) has `code` and `lines` of equal length for every token
stream and every fuel bound. -/
theorem code_lines_lockstep :
    (∀ (c : Chunk) (b l : ℕ),
      (Chunk.write c b l).code.length = c.code.length + 1 ∧
      (Chunk.write c b l).lines.length = c.lines.length + 1) ∧
    (∀ (c : Chunk) (v : Value),
      (Chunk.addConstant c v).2.code = c.code ∧
      (Chunk.addConstant c v).2.lines = c.lines) ∧
    (∀ fuel toks eofLine,
      (compileToks fuel toks eofLine).chunk.code.length =
        (compileToks fuel toks eofLine).chunk.lines.length) := by
  refine ⟨fun c b l => ⟨by simp [Chunk.write], by simp [Chunk.write]⟩,
          fun c v => ⟨rfl, rfl⟩,
          fun fuel toks eofLine => ?_⟩
  have h0 : PWf (initParser toks eofLine) := rfl
  have h1 : PWf (advance (initParser toks eofLine)) :=
    pwf_of_chunk_eq (chunk_advance _) h0
  have h2 : PWf (compileLoopF fuel (advance (initParser toks eofLine))) :=
    pwf_compileLoopF fuel _ h1
  exact pwf_emitByte _ _ h2

end Thorium
